import Mathlib

/-!
Verification development for the PDF Keyword Value Estimator
(`src/main.py`).  The Python source is shallowly embedded below:

* `count_keywords`       embeds `KeywordEstimatorApp.count_keywords`
  (src/main.py:464-484);
* `display_results` and `export_to_excel` embed the result aggregation,
  sorting and export logic (src/main.py:530-601 and 603-688);
* `OCRWorker.run` embeds the OCR worker loop (src/main.py:52-109) as the
  trace of progress events, external calls and the terminal signal;
* `get_keywords_from_table` embeds the keyword-table reader
  (src/main.py:355-383);
* `on_ocr_finished` embeds the OCR completion handler
  (src/main.py:425-444).

Python `int` truncation of non-negative float quotients is modelled as
exact natural-number floor division, Python string lowercasing and digit
tests are modelled on their ASCII behaviour, and Python's stable `sorted`
is modelled with `List.mergeSort` (a stable merge sort).
-/

namespace WordEstimator

/-- Lowercasing of a character sequence: models Python's `str.lower` /
`re.IGNORECASE` case folding on ASCII text (src/main.py:479 compiles the
escaped keyword with `re.IGNORECASE`; src/main.py:552 and 646 sort with
key `x[0].lower()`). -/
def lowerList (s : List Char) : List Char := s.map Char.toLower

/-- Number of matches that `re.findall(re.escape(pat), text)` returns for
a literal pattern: non-overlapping, left-to-right scanning.  After a
match of length `L ≥ 1` the scan resumes `L` characters further; an
empty pattern matches at every position including the end of the text,
the scan advancing one character each time (CPython `re` semantics for a
zero-width pattern). -/
def countOccsFuel (pat : List Char) : Nat → List Char → Nat
  | _, [] => if pat.isEmpty then 1 else 0
  | 0, _ :: _ => 0
  | fuel + 1, c :: cs =>
    if pat.isEmpty then 1 + countOccsFuel pat fuel cs
    else if pat.isPrefixOf (c :: cs) then
      1 + countOccsFuel pat fuel (List.drop (pat.length - 1) cs)
    else countOccsFuel pat fuel cs

/-- Total number of scan matches.  The scan consumes at least one
character of the text per step, so fuel equal to the text length always
suffices; the fuel argument merely makes the recursion structural. -/
def countOccs (pat text : List Char) : Nat :=
  countOccsFuel pat text.length text

/-- Case-insensitive occurrence count of the literal substring `keyword`
in `text`: `len(re.compile(re.escape(keyword), re.IGNORECASE).findall(text))`
at src/main.py:479-480, with `re.IGNORECASE` modelled by lowercasing both
sides. -/
def occCount (keyword text : String) : Nat :=
  countOccs (lowerList keyword.data) (lowerList text.data)

/-- One row of the result list: the tuple
`(keyword, count, value, subtotal)` built at src/main.py:482. -/
structure CountRecord where
  keyword : String
  count : Nat
  value : Int
  subtotal : Int
deriving DecidableEq

/-- Embedding of `KeywordEstimatorApp.count_keywords`
(src/main.py:464-484).  The Python dict `keywords` iterates in insertion
order and is modelled as an association list. -/
def count_keywords (text : String) (keywords : List (String × Int)) :
    List CountRecord :=
  keywords.map (fun kv =>
    { keyword := kv.1
      count := occCount kv.1 text
      value := kv.2
      subtotal := (occCount kv.1 text : Int) * kv.2 })

/-- Sort key used by both the results table and the Excel export:
`key=lambda x: x[0].lower()` (src/main.py:552 and 646).  Lean's `String`
order is lexicographic on character code points, as Python's is. -/
def sortKey (r : CountRecord) : String :=
  ⟨lowerList r.keyword.data⟩

/-- Comparator handed to the stable sort: records compare by their
lowercased keyword. -/
def recLE (a b : CountRecord) : Bool :=
  decide (sortKey a ≤ sortKey b)

/-- Embedding of `sorted(results, key=lambda x: x[0].lower())`
(src/main.py:552 and 646).  Python's `sorted` is a stable sort by the
given key; `List.mergeSort` is a stable merge sort, so the two agree on
every input. -/
def sorted_results (results : List CountRecord) : List CountRecord :=
  results.mergeSort recLE

/-- Grand total accumulation of `display_results` (src/main.py:547-549):
`grand_total = 0; for ...: grand_total += subtotal`. -/
def display_grand_total (results : List CountRecord) : Int :=
  results.foldl (fun acc r => acc + r.subtotal) 0

/-- Observable outcome of `display_results` (src/main.py:530-601): the
rows inserted into the results table in order, the grand-total cell, and
the state of the export button (line 601 enables it). -/
structure DisplayedResults where
  rows : List CountRecord
  grandTotal : Int
  exportEnabled : Bool
deriving DecidableEq

/-- Embedding of `KeywordEstimatorApp.display_results`
(src/main.py:530-601). -/
def display_results (results : List CountRecord) : DisplayedResults :=
  { rows := sorted_results results
    grandTotal := display_grand_total results
    exportEnabled := true }

/-- Worksheet cell written by the Excel export: openpyxl receives either
a string or a Python int. -/
inductive Cell where
  | str (v : String)
  | num (v : Int)
deriving DecidableEq

/-- Grand total accumulation of `export_to_excel` (src/main.py:647-651),
computed over the sorted rows. -/
def export_grand_total (results : List CountRecord) : Int :=
  (sorted_results results).foldl (fun acc r => acc + r.subtotal) 0

/-- Embedding of the worksheet contents produced by
`KeywordEstimatorApp.export_to_excel` (src/main.py:628-655): a header
row, one row per record sorted by lowercased keyword, and a final
GRAND TOTAL row. -/
def export_to_excel (results : List CountRecord) : List (List Cell) :=
  [[Cell.str "Keyword", Cell.str "Count", Cell.str "Value", Cell.str "Subtotal"]]
    ++ (sorted_results results).map (fun r =>
        [Cell.str r.keyword, Cell.num r.count, Cell.num r.value, Cell.num r.subtotal])
    ++ [[Cell.str "GRAND TOTAL", Cell.str "", Cell.str "", Cell.num (export_grand_total results)]]

/-- Progress-dialog message emitted by the OCR worker, one constructor
per format string in `OCRWorker.run` (src/main.py:56,65,79,99,105). -/
inductive Msg where
  | opening
  | found (n : Nat)
  | converting (p n : Nat)
  | extracting (p n : Nat)
  | complete
deriving DecidableEq

/-- One observable step of `OCRWorker.run`: a progress emission, an
external call (`convert_from_path` at src/main.py:83, documented as the
Page Renderer; `pytesseract.image_to_string` at src/main.py:102, the
Recognition Service), or a terminal signal (`finished` at line 106,
`error` at lines 62 and 109). -/
inductive Event where
  | progress (pct : Nat) (msg : Msg)
  | renderCall (p : Nat)
  | ocrCall (p : Nat)
  | finished (text : String)
  | error (msg : String)
deriving DecidableEq

/-- Progress base for page `p` of `n` (src/main.py:73):
`5 + int(((page_num - 1) / total_pages) * 90)`, Python float truncation
modelled as floor division. -/
def progressPercent (n p : Nat) : Nat := 5 + 90 * (p - 1) / n

/-- Conversion-start percentage for page `p` of `n` (src/main.py:76):
`progress_percent + int((1 / total_pages) * 9)`. -/
def conversionProgress (n p : Nat) : Nat := progressPercent n p + 9 / n

/-- Recognition-start percentage for page `p` of `n` (src/main.py:96):
`5 + int((page_num / total_pages) * 90)`. -/
def ocrProgress (n p : Nat) : Nat := 5 + 90 * p / n

/-- Events of one iteration of the page loop (src/main.py:70-103).
`pdf p` is the outcome of rendering page `p`: `none` models
`convert_from_path` returning no image (line 90, the page is skipped),
`some t` models a rendered page whose OCR text is `t`. -/
def pageBlock (n : Nat) (pdf : Nat → Option String) (p : Nat) : List Event :=
  Event.progress (conversionProgress n p) (Msg.converting p n) ::
  Event.renderCall p ::
  match pdf p with
  | none => []
  | some _ =>
      [Event.progress (ocrProgress n p) (Msg.extracting p n), Event.ocrCall p]

/-- Text contributed by page `p` to the accumulator
(src/main.py:102-103): the recognized text plus a newline, or nothing
when the page yields no image. -/
def pageText (pdf : Nat → Option String) (p : Nat) : String :=
  match pdf p with
  | none => ""
  | some t => t ++ "\n"

namespace OCRWorker

/-- Embedding of `OCRWorker.run` (src/main.py:52-109) on the exception-free
path, as the trace of progress events, external calls and the terminal
signal.  `n` is `doc.page_count`. -/
def run (n : Nat) (pdf : Nat → Option String) : List Event :=
  Event.progress 0 Msg.opening ::
  if n = 0 then [Event.error "No pages found in PDF"]
  else
    Event.progress 5 (Msg.found n) ::
    ((List.range' 1 n).flatMap (pageBlock n pdf)
      ++ [Event.progress 100 Msg.complete,
          Event.finished (String.join ((List.range' 1 n).map (pageText pdf)))])

end OCRWorker

/-- Percentage carried by a progress event. -/
def percentOf : Event → Option Nat
  | Event.progress v _ => some v
  | _ => none

/-- Sequence of `percentComplete` values emitted over one run, in
emission order. -/
def percents (n : Nat) (pdf : Nat → Option String) : List Nat :=
  (OCRWorker.run n pdf).filterMap percentOf

/-- Characters removed by Python's `str.strip()` with no argument, on
ASCII text (space, tab, newline, carriage return, vertical tab, form
feed). -/
def isPySpace (c : Char) : Bool :=
  c = ' ' || c = '\t' || c = '\n' || c = '\r' || c = '\x0b' || c = '\x0c'

/-- Embedding of Python's `str.strip()` (used at src/main.py:369-370 and
430): drop leading and trailing whitespace. -/
def pyStrip (s : String) : String :=
  ⟨((s.data.dropWhile isPySpace).reverse.dropWhile isPySpace).reverse⟩

/-- Numeric value of an ASCII digit. -/
def digitVal (c : Char) : Nat := c.toNat - '0'.toNat

/-- Digit part of Python's `int(str)` grammar after the first digit:
`digit (["_"] digit)*` — single underscores are allowed between digits
only.  `acc` is the value of the digits already consumed. -/
def pyDigitsAux (acc : Nat) : List Char → Option Nat
  | [] => some acc
  | '_' :: rest =>
    match rest with
    | [] => none
    | c :: cs => if c.isDigit then pyDigitsAux (acc * 10 + digitVal c) cs else none
  | c :: cs => if c.isDigit then pyDigitsAux (acc * 10 + digitVal c) cs else none

/-- Digit part of Python's `int(str)` grammar: one leading digit, then
`pyDigitsAux`. -/
def pyDigitsStart : List Char → Option Nat
  | [] => none
  | c :: cs => if c.isDigit then pyDigitsAux (digitVal c) cs else none

/-- Embedding of Python's built-in `int(value_text)` on an
already-stripped string (src/main.py:374), on ASCII digits: an optional
sign followed by a non-empty digit sequence with optional single
underscores between digits; anything else raises `ValueError`, modelled
as `none`. -/
def pyInt (s : String) : Option Int :=
  match s.data with
  | '+' :: rest => (pyDigitsStart rest).map (fun v => (v : Int))
  | '-' :: rest => (pyDigitsStart rest).map (fun v => -(v : Int))
  | l => (pyDigitsStart l).map (fun v => (v : Int))

/-- Assignment `keywords[keyword] = value` on a Python dict modelled as
an association list: an existing key keeps its position and gets the new
value, a new key is appended. -/
def dictInsert (k : String) (v : Int) : List (String × Int) → List (String × Int)
  | [] => [(k, v)]
  | (k', v') :: rest =>
      if k' = k then (k', v) :: rest else (k', v') :: dictInsert k v rest

/-- One iteration of the row loop of `get_keywords_from_table`
(src/main.py:364-381).  The accumulator carries the dict under
construction and the list of warned-about keywords (the
`QMessageBox.warning` call at line 377 for a value that fails `int`). -/
def get_keywords_step (acc : List (String × Int) × List String)
    (row : Option String × Option String) : List (String × Int) × List String :=
  match row with
  | (some keywordItem, some valueItem) =>
    let keyword := pyStrip keywordItem
    let value_text := pyStrip valueItem
    if keyword ≠ "" ∧ value_text ≠ "" then
      match pyInt value_text with
      | some v => (dictInsert keyword v acc.1, acc.2)
      | none => (acc.1, acc.2 ++ [keyword])
    else acc
  | _ => acc

/-- Embedding of `KeywordEstimatorApp.get_keywords_from_table`
(src/main.py:355-383).  A row of the Qt table is a pair of optional cell
texts (`QTableWidget.item` returns `None` for a cell never edited); the
result is the keyword dict in insertion order together with the warnings
issued. -/
def get_keywords_from_table (rows : List (Option String × Option String)) :
    List (String × Int) × List String :=
  rows.foldl get_keywords_step ([], [])

/-- Dict lookup `d[k]` on the association-list model. -/
def dictLookup (k : String) : List (String × Int) → Option Int
  | [] => none
  | (k', v) :: rest => if k' = k then some v else dictLookup k rest

/-- Observable outcome of `on_ocr_finished` (src/main.py:425-444):
either the No Text Found warning (nothing else happens), or the
extracted-text preview plus the displayed result set. -/
inductive FinishOutcome where
  | noTextWarning
  | results (shownText : String) (displayed : DisplayedResults)
deriving DecidableEq

/-- Embedding of `KeywordEstimatorApp.on_ocr_finished`
(src/main.py:425-444): when `text.strip()` is empty a warning is shown
and the handler returns; otherwise the text is displayed and
`count_keywords` / `display_results` run. -/
def on_ocr_finished (text : String) (keywords : List (String × Int)) :
    FinishOutcome :=
  if pyStrip text = "" then FinishOutcome.noTextWarning
  else FinishOutcome.results text (display_results (count_keywords text keywords))

/-! Helper lemmas. -/

lemma countOccsFuel_nil_pat (txt : List Char) :
    countOccsFuel [] txt.length txt = txt.length + 1 := by
  induction txt with
  | nil => rfl
  | cons c cs ih =>
    simp only [List.length_cons, countOccsFuel, List.isEmpty_nil, if_pos]
    omega

lemma countOccs_nil_pat (txt : List Char) :
    countOccs [] txt = txt.length + 1 :=
  countOccsFuel_nil_pat txt

lemma occCount_empty_keyword (text : String) :
    occCount "" text = text.length + 1 := by
  have h := countOccs_nil_pat (lowerList text.data)
  simp only [lowerList, List.length_map] at h
  exact h

lemma foldl_add_subtotal (l : List CountRecord) (init : Int) :
    l.foldl (fun acc r => acc + r.subtotal) init
      = init + (l.map CountRecord.subtotal).sum := by
  induction l generalizing init with
  | nil => simp
  | cons hd tl ih => simp [List.foldl_cons, ih]; omega

/-- C1: for every text and keyword map, the counter yields one record
`(k, c, v, c*v)` per keyword, where `c` is the number of
case-insensitive, non-overlapping, left-to-right occurrences of the
literal substring `k` (substrings inside larger words count); on the
spec's example the counts are apple=2 and banana=1 with subtotals 20
and -5, `occCount "app" "apples" = 1` shows that no word boundary is
applied, and `occCount "ana" "banana" = 1` shows that the scan is
non-overlapping. -/
theorem C1_count_keywords_records :
    (∀ (text : String) (keywords : List (String × Int)),
      count_keywords text keywords = keywords.map (fun kv =>
        { keyword := kv.1
          count := occCount kv.1 text
          value := kv.2
          subtotal := (occCount kv.1 text : Int) * kv.2 }))
    ∧ count_keywords "Apple pie, banana split, apple tart"
        [("apple", 10), ("banana", -5)]
        = [⟨"apple", 2, 10, 20⟩, ⟨"banana", 1, -5, -5⟩]
    ∧ occCount "app" "apples" = 1
    ∧ occCount "ana" "banana" = 1 :=
  ⟨fun _ _ => rfl, by decide, by decide, by decide⟩

/-- C2: the displayed grand total (and the exported one) is exactly the
sum of the subtotal fields; the empty record list yields an empty row
sequence and grand total 0, and the identity holds in particular for
`count_keywords` output. -/
theorem C2_grand_total_is_sum (results : List CountRecord) :
    (display_results results).grandTotal = (results.map CountRecord.subtotal).sum
    ∧ export_grand_total results = (results.map CountRecord.subtotal).sum
    ∧ (display_results []).rows = [] ∧ (display_results []).grandTotal = 0
    ∧ ∀ (text : String) (keywords : List (String × Int)),
        (display_results (count_keywords text keywords)).grandTotal
          = ((count_keywords text keywords).map CountRecord.subtotal).sum := by
  have hsum : ∀ rs : List CountRecord,
      display_grand_total rs = (rs.map CountRecord.subtotal).sum := by
    intro rs
    simpa [display_grand_total] using foldl_add_subtotal rs 0
  refine ⟨hsum results, ?_, by simp [display_results, sorted_results],
    rfl, fun text keywords => hsum _⟩
  have hperm : (sorted_results results).Perm results :=
    List.mergeSort_perm results recLE
  have := (hperm.map CountRecord.subtotal).sum_eq
  simpa [export_grand_total,
    (foldl_add_subtotal (sorted_results results) 0)] using this

/-- C7: a document reporting zero pages fails immediately with the
empty-document error and the run makes no render call and no
recognition call. -/
theorem C7_zero_pages_fails (pdf : Nat → Option String) :
    OCRWorker.run 0 pdf
      = [Event.progress 0 Msg.opening, Event.error "No pages found in PDF"]
    ∧ (∀ p, Event.renderCall p ∉ OCRWorker.run 0 pdf)
    ∧ (∀ p, Event.ocrCall p ∉ OCRWorker.run 0 pdf) := by
  refine ⟨rfl, fun p h => ?_, fun p h => ?_⟩ <;>
    simp [OCRWorker.run] at h

/-- C8 counterexample: on text "ab" the empty keyword is counted 3 times
(the empty pattern matches at every position), not 0 as the claim
states, so its subtotal is 30 rather than 0. -/
theorem C8_counterexample :
    occCount "" "ab" = 3 ∧ occCount "" "ab" ≠ 0
    ∧ count_keywords "ab" [("", 10)] = [⟨"", 3, 10, 30⟩] := by
  refine ⟨by decide, by decide, by decide⟩

/-- C8 amended: calling the counter with an empty keyword does not crash;
it yields `length(text) + 1` matches (the empty pattern matches at every
scan position, including the end of the text), hence subtotal
`(length(text) + 1) * value`. -/
theorem C8_amended_empty_keyword (text : String) (v : Int) :
    count_keywords text [("", v)]
      = [⟨"", text.length + 1, v, ((text.length : Int) + 1) * v⟩] := by
  simp [count_keywords, occCount_empty_keyword, CountRecord.mk.injEq]

/-- C10: when the accumulated OCR text is empty or whitespace-only the
handler shows the No Text Found warning and does nothing else; only for
non-blank text are the counter and aggregator invoked, and only then is
the export button enabled. -/
theorem C10_blank_text_guard (text : String) (keywords : List (String × Int)) :
    (pyStrip text = "" → on_ocr_finished text keywords = FinishOutcome.noTextWarning)
    ∧ (pyStrip text ≠ "" →
        on_ocr_finished text keywords
          = FinishOutcome.results text (display_results (count_keywords text keywords))
        ∧ (display_results (count_keywords text keywords)).exportEnabled = true) := by
  constructor
  · intro h
    simp [on_ocr_finished, h]
  · intro h
    exact ⟨by simp [on_ocr_finished, h], rfl⟩

/-- C10 witness: whitespace-only text triggers the warning; the text
"apple" produces displayed results. -/
theorem C10_blank_text_guard_witness :
    on_ocr_finished " \n\t " [("apple", 2)] = FinishOutcome.noTextWarning
    ∧ on_ocr_finished "apple" [("apple", 2)]
        = FinishOutcome.results "apple"
            (display_results (count_keywords "apple" [("apple", 2)])) :=
  ⟨(C10_blank_text_guard " \n\t " [("apple", 2)]).1 (by decide),
   ((C10_blank_text_guard "apple" [("apple", 2)]).2 (by decide)).1⟩

lemma recLE_trans : ∀ a b c : CountRecord,
    recLE a b = true → recLE b c = true → recLE a c = true := by
  intro a b c hab hbc
  simp only [recLE, decide_eq_true_eq] at *
  exact le_trans hab hbc

lemma recLE_total : ∀ a b : CountRecord, (recLE a b || recLE b a) = true := by
  intro a b
  simp only [recLE, Bool.or_eq_true, decide_eq_true_eq]
  exact le_total _ _

lemma sorted_results_pairwise (results : List CountRecord) :
    List.Pairwise (fun a b => sortKey a ≤ sortKey b) (sorted_results results) := by
  have h := @List.sorted_mergeSort CountRecord recLE recLE_trans recLE_total results
  exact h.imp (fun hab => by simpa [recLE, decide_eq_true_eq] using hab)

lemma sorted_results_stable (results : List CountRecord) (k : String) :
    (sorted_results results).filter (fun r => decide (sortKey r = k))
      = results.filter (fun r => decide (sortKey r = k)) := by
  have hpair : (results.filter (fun r => decide (sortKey r = k))).Pairwise
      (fun a b => recLE a b = true) := by
    refine List.pairwise_of_forall_mem_list ?_
    intro a ha b hb
    have ha' := (List.mem_filter.mp ha).2
    have hb' := (List.mem_filter.mp hb).2
    simp only [decide_eq_true_eq] at ha' hb'
    simp [recLE, ha', hb']
  have hsub : (results.filter (fun r => decide (sortKey r = k))).Sublist
      (sorted_results results) :=
    List.sublist_mergeSort recLE_trans recLE_total hpair (List.filter_sublist results)
  have hsub2 := hsub.filter (fun r => decide (sortKey r = k))
  rw [List.filter_filter] at hsub2
  simp only [Bool.and_self] at hsub2
  have hperm : ((sorted_results results).filter (fun r => decide (sortKey r = k))).Perm
      (results.filter (fun r => decide (sortKey r = k))) :=
    (List.mergeSort_perm results recLE).filter _
  exact (hsub2.eq_of_length hperm.length_eq.symm).symm

/-- C6: the presented rows (and the exported data rows, which are the
same list) are non-decreasing under the case-insensitive,
locale-independent keyword comparison, are a permutation of the input
records, and records whose keywords compare equal keep their original
input order (the sort is stable: filtering by any key value commutes
with sorting). -/
theorem C6_sorted_case_insensitive_stable (results : List CountRecord) :
    List.Pairwise (fun a b => sortKey a ≤ sortKey b) (display_results results).rows
    ∧ (display_results results).rows.Perm results
    ∧ (∀ k : String,
        (display_results results).rows.filter (fun r => decide (sortKey r = k))
          = results.filter (fun r => decide (sortKey r = k)))
    ∧ export_to_excel results
        = [[Cell.str "Keyword", Cell.str "Count", Cell.str "Value", Cell.str "Subtotal"]]
          ++ (display_results results).rows.map (fun r =>
              [Cell.str r.keyword, Cell.num r.count, Cell.num r.value, Cell.num r.subtotal])
          ++ [[Cell.str "GRAND TOTAL", Cell.str "", Cell.str "",
              Cell.num (export_grand_total results)]] :=
  ⟨sorted_results_pairwise results, List.mergeSort_perm results recLE,
   sorted_results_stable results, rfl⟩

/-- Percentages emitted by one page iteration, in order. -/
def blockPcts (n : Nat) (pdf : Nat → Option String) (p : Nat) : List Nat :=
  conversionProgress n p ::
    (match pdf p with
     | none => []
     | some _ => [ocrProgress n p])

lemma pageBlock_percents (n : Nat) (pdf : Nat → Option String) (p : Nat) :
    (pageBlock n pdf p).filterMap percentOf = blockPcts n pdf p := by
  cases h : pdf p <;> simp [pageBlock, blockPcts, percentOf, h]

lemma flatMap_percents (n : Nat) (pdf : Nat → Option String) (ps : List Nat) :
    (ps.flatMap (pageBlock n pdf)).filterMap percentOf
      = ps.flatMap (blockPcts n pdf) := by
  induction ps with
  | nil => simp
  | cons q qs ih =>
    simp [List.flatMap_cons, List.filterMap_append, pageBlock_percents, ih]

lemma convProg_le_ocrProg (n p : Nat) (hp : 1 ≤ p) :
    conversionProgress n p ≤ ocrProgress n p := by
  have h1 : 90 * (p - 1) / n + 9 / n ≤ (90 * (p - 1) + 9) / n :=
    Nat.add_div_le_add_div _ _ _
  have h2 : (90 * (p - 1) + 9) / n ≤ 90 * p / n :=
    Nat.div_le_div_right (by omega)
  simp only [conversionProgress, progressPercent, ocrProgress]
  omega

lemma ocrProg_le_convProg_succ (n p : Nat) :
    ocrProgress n p ≤ conversionProgress n (p + 1) := by
  simp only [conversionProgress, progressPercent, ocrProgress, Nat.add_sub_cancel]
  exact Nat.le_add_right _ _

lemma ocrProg_le_95 (n p : Nat) (hn : 1 ≤ n) (hpn : p ≤ n) :
    ocrProgress n p ≤ 95 := by
  have h1 : 90 * p / n ≤ 90 * n / n := Nat.div_le_div_right (by omega)
  have h2 : 90 * n / n = 90 := by
    rw [Nat.mul_comm]
    exact Nat.mul_div_cancel_left 90 (by omega)
  simp only [ocrProgress]
  omega

lemma five_le_convProg (n p : Nat) : 5 ≤ conversionProgress n p := by
  simp only [conversionProgress, progressPercent]
  exact le_trans (Nat.le_add_right 5 _) (Nat.le_add_right _ _)

lemma pcts_head (n : Nat) (pdf : Nat → Option String) (p k : Nat) :
    (((List.range' p k).flatMap (blockPcts n pdf)) ++ [100]).head?
      = some (if k = 0 then 100 else conversionProgress n p) := by
  cases k with
  | zero => simp
  | succ k => simp [List.range'_succ, List.flatMap_cons, blockPcts]

lemma pcts_chain (n : Nat) (pdf : Nat → Option String) (hn : 1 ≤ n) :
    ∀ (k p : Nat), 1 ≤ p → p + k = n + 1 →
      List.Chain' (· ≤ ·) (((List.range' p k).flatMap (blockPcts n pdf)) ++ [100]) := by
  intro k
  induction k with
  | zero => intro p hp hpk; simp
  | succ k ih =>
    intro p hp hpk
    have hpn : p ≤ n := by omega
    have hconv : conversionProgress n p ≤ ocrProgress n p := convProg_le_ocrProg n p hp
    have hocr95 : ocrProgress n p ≤ 95 := ocrProg_le_95 n p hn hpn
    have hchain : List.Chain' (· ≤ ·)
        (((List.range' (p + 1) k).flatMap (blockPcts n pdf)) ++ [100]) :=
      ih (p + 1) (by omega) (by omega)
    have hheadle : ∀ y ∈ (((List.range' (p + 1) k).flatMap (blockPcts n pdf)) ++ [100]).head?,
        ocrProgress n p ≤ y := by
      intro y hy
      rw [pcts_head n pdf (p + 1) k] at hy
      simp only [Option.mem_def, Option.some.injEq] at hy
      subst hy
      by_cases hk : k = 0
      · rw [if_pos hk]
        omega
      · rw [if_neg hk]
        exact ocrProg_le_convProg_succ n p
    rw [List.range'_succ, List.flatMap_cons, List.append_assoc]
    cases hpdf : pdf p with
    | none =>
      simp only [blockPcts, hpdf, List.cons_append, List.nil_append]
      refine List.chain'_cons'.mpr ⟨?_, hchain⟩
      intro y hy
      exact le_trans hconv (hheadle y hy)
    | some t =>
      simp only [blockPcts, hpdf, List.cons_append, List.nil_append]
      refine List.chain'_cons'.mpr ⟨?_, List.chain'_cons'.mpr ⟨hheadle, hchain⟩⟩
      intro y hy
      simp only [List.head?_cons, Option.mem_def, Option.some.injEq] at hy
      subst hy
      exact hconv

lemma percents_eq (n : Nat) (pdf : Nat → Option String) (hn : 1 ≤ n) :
    percents n pdf
      = 0 :: 5 :: (((List.range' 1 n).flatMap (blockPcts n pdf)) ++ [100]) := by
  have hne : ¬ n = 0 := by omega
  simp only [percents, OCRWorker.run, if_neg hne]
  simp [percentOf, List.filterMap_append, flatMap_percents n pdf]

/-- C4: over any run with at least one page, whatever pages render, the
sequence of emitted percentComplete values (from the opening event
through the terminal event) is non-decreasing, and the final emitted
value is exactly 100. -/
theorem C4_progress_monotone (n : Nat) (pdf : Nat → Option String) (hn : 1 ≤ n) :
    List.Chain' (· ≤ ·) (percents n pdf)
    ∧ (percents n pdf).getLast? = some 100 := by
  rw [percents_eq n pdf hn]
  constructor
  · refine List.chain'_cons'.mpr ⟨fun y _ => Nat.zero_le y, ?_⟩
    refine List.chain'_cons'.mpr ⟨?_, pcts_chain n pdf hn n 1 le_rfl (by omega)⟩
    intro y hy
    rw [pcts_head n pdf 1 n] at hy
    simp only [Option.mem_def, Option.some.injEq] at hy
    subst hy
    by_cases hk : n = 0
    · omega
    · rw [if_neg hk]
      exact five_le_convProg n 1
  · rw [show (0 : Nat) :: 5 :: (((List.range' 1 n).flatMap (blockPcts n pdf)) ++ [100])
        = (0 :: 5 :: ((List.range' 1 n).flatMap (blockPcts n pdf))) ++ [100] by simp]
    exact List.getLast?_concat _

/-- C4 witness: a concrete two-page run has a non-decreasing percentage
sequence ending at 100. -/
theorem C4_progress_monotone_witness :
    List.Chain' (· ≤ ·) (percents 2 (fun _ => some "pg"))
    ∧ (percents 2 (fun _ => some "pg")).getLast? = some 100 :=
  C4_progress_monotone 2 (fun _ => some "pg") (by decide)

/-- C3 counterexample: on a one-page document the claim's formula gives
a conversion-start percentage of `5 + floor(90 * 0 / 1) = 5`, but the
run emits no conversion-start event at 5: the code adds
`int((1 / total_pages) * 9)` (src/main.py:76), so page 1's
conversion-start event carries 14. -/
theorem C3_counterexample :
    Event.progress 5 (Msg.converting 1 1) ∉ OCRWorker.run 1 (fun _ => some "page")
    ∧ Event.progress 14 (Msg.converting 1 1) ∈ OCRWorker.run 1 (fun _ => some "page") := by
  decide

/-- C3 amended: for every document with at least one page and every page
p in 1..pageCount, the run emits the conversion-start event for page p
with percentage exactly `5 + floor(90*(p-1)/pageCount) + floor(9/pageCount)`
and the recognition-start event for page p with percentage exactly
`5 + floor(90*p/pageCount)`; on successful completion it emits a
terminal 100% event. -/
theorem C3_amended_page_percentages (n p : Nat) (f : Nat → String)
    (hp : 1 ≤ p) (hpn : p ≤ n) :
    Event.progress (5 + 90 * (p - 1) / n + 9 / n) (Msg.converting p n)
      ∈ OCRWorker.run n (fun q => some (f q))
    ∧ Event.progress (5 + 90 * p / n) (Msg.extracting p n)
      ∈ OCRWorker.run n (fun q => some (f q))
    ∧ Event.progress 100 Msg.complete ∈ OCRWorker.run n (fun q => some (f q)) := by
  have hne : ¬ n = 0 := by omega
  have hmem : p ∈ List.range' 1 n := List.mem_range'_1.mpr ⟨hp, by omega⟩
  simp only [OCRWorker.run, if_neg hne]
  refine ⟨?_, ?_, ?_⟩ <;>
    simp only [List.mem_cons, List.mem_append, List.mem_flatMap]
  · exact Or.inr (Or.inr (Or.inl ⟨p, hmem,
      by simp [pageBlock, conversionProgress, progressPercent]⟩))
  · exact Or.inr (Or.inr (Or.inl ⟨p, hmem, by simp [pageBlock, ocrProgress]⟩))
  · exact Or.inr (Or.inr (Or.inr (by simp)))

/-- C3 witness: page 2 of a 3-page run gets conversion-start percentage
38 = 5 + 30 + 3 and recognition-start percentage 65 = 5 + 60, and the
run emits the terminal 100% event. -/
theorem C3_amended_page_percentages_witness :
    Event.progress 38 (Msg.converting 2 3) ∈ OCRWorker.run 3 (fun _ => some "x")
    ∧ Event.progress 65 (Msg.extracting 2 3) ∈ OCRWorker.run 3 (fun _ => some "x")
    ∧ Event.progress 100 Msg.complete ∈ OCRWorker.run 3 (fun _ => some "x") :=
  C3_amended_page_percentages 3 2 (fun _ => "x") (by decide) (by decide)

/-- Entry contributed to the keyword dict by one table row: present
exactly when both cells exist, both texts are non-empty after stripping,
and the value text parses as an integer. -/
def rowEntry (row : Option String × Option String) : Option (String × Int) :=
  match row with
  | (some keywordItem, some valueItem) =>
    let keyword := pyStrip keywordItem
    let value_text := pyStrip valueItem
    if keyword ≠ "" ∧ value_text ≠ "" then
      (pyInt value_text).map (fun v => (keyword, v))
    else none
  | _ => none

/-- Warning issued for one table row: present exactly when both cells
exist, both texts are non-empty after stripping, and the value text
fails integer parsing. -/
def rowWarning (row : Option String × Option String) : Option String :=
  match row with
  | (some keywordItem, some valueItem) =>
    let keyword := pyStrip keywordItem
    let value_text := pyStrip valueItem
    if keyword ≠ "" ∧ value_text ≠ "" ∧ pyInt value_text = none then some keyword
    else none
  | _ => none

lemma get_keywords_step_fst (acc : List (String × Int) × List String)
    (row : Option String × Option String) :
    (get_keywords_step acc row).1
      = match rowEntry row with
        | some e => dictInsert e.1 e.2 acc.1
        | none => acc.1 := by
  rcases row with ⟨a, b⟩
  cases a <;> cases b <;> simp only [get_keywords_step, rowEntry]
  case some.some a b =>
    by_cases hc : pyStrip a ≠ "" ∧ pyStrip b ≠ ""
    · rw [if_pos hc, if_pos hc]
      cases hv : pyInt (pyStrip b) <;> simp [hv]
    · rw [if_neg hc, if_neg hc]

lemma get_keywords_step_snd (acc : List (String × Int) × List String)
    (row : Option String × Option String) :
    (get_keywords_step acc row).2
      = match rowWarning row with
        | some kw => acc.2 ++ [kw]
        | none => acc.2 := by
  rcases row with ⟨a, b⟩
  cases a <;> cases b <;> simp only [get_keywords_step, rowWarning]
  case some.some a b =>
    by_cases hc : pyStrip a ≠ "" ∧ pyStrip b ≠ ""
    · rw [if_pos hc]
      cases hv : pyInt (pyStrip b) <;>
        simp [hv, hc.1, hc.2]
    · rw [if_neg hc]
      have : ¬ (pyStrip a ≠ "" ∧ pyStrip b ≠ "" ∧ pyInt (pyStrip b) = none) := by
        tauto
      rw [if_neg this]

lemma lookup_dictInsert (k k' : String) (v : Int) (d : List (String × Int)) :
    dictLookup k (dictInsert k' v d) = if k' = k then some v else dictLookup k d := by
  induction d with
  | nil => simp [dictInsert, dictLookup]
  | cons hd tl ih =>
    rcases hd with ⟨k0, v0⟩
    by_cases h0 : k0 = k'
    · subst h0
      by_cases hk : k0 = k <;> simp [dictInsert, dictLookup, hk]
    · by_cases hk : k0 = k
      · subst hk
        have : ¬ k' = k0 := fun h => h0 h.symm
        simp [dictInsert, dictLookup, h0, this]
      · simp [dictInsert, dictLookup, h0, hk, ih]

lemma mem_keys_dictInsert (x k : String) (v : Int) (d : List (String × Int)) :
    x ∈ (dictInsert k v d).map Prod.fst ↔ x = k ∨ x ∈ d.map Prod.fst := by
  induction d with
  | nil => simp [dictInsert]
  | cons hd tl ih =>
    rcases hd with ⟨k0, v0⟩
    by_cases h0 : k0 = k
    · subst h0
      simp [dictInsert]
    · simp [dictInsert, h0, ih]
      tauto

lemma nodup_keys_dictInsert (k : String) (v : Int) (d : List (String × Int))
    (h : (d.map Prod.fst).Nodup) : ((dictInsert k v d).map Prod.fst).Nodup := by
  induction d with
  | nil => simp [dictInsert]
  | cons hd tl ih =>
    rcases hd with ⟨k0, v0⟩
    simp only [List.map_cons, List.nodup_cons] at h
    by_cases h0 : k0 = k
    · subst h0
      simp [dictInsert, List.nodup_cons, h.1, h.2]
    · simp only [dictInsert, if_neg h0, List.map_cons, List.nodup_cons]
      refine ⟨?_, ih h.2⟩
      rw [mem_keys_dictInsert]
      rintro (rfl | hx)
      · exact h0 rfl
      · exact h.1 hx

lemma getLast?_cons_or {α : Type} (a : α) (l : List α) :
    (a :: l).getLast? = l.getLast?.or (some a) := by
  cases l with
  | nil => rfl
  | cons b t =>
    have hs : (b :: t).getLast?.isSome = true := List.getLast?_isSome.mpr (by simp)
    obtain ⟨x, hx⟩ := Option.isSome_iff_exists.mp hs
    rw [List.getLast?_cons_cons, hx]
    rfl

lemma or_map_snd (x y : Option (String × Int)) :
    (x.or y).map Prod.snd = (x.map Prod.snd).or (y.map Prod.snd) := by
  cases x <;> rfl

lemma get_keywords_loop (rows : List (Option String × Option String)) :
    ∀ (d : List (String × Int)) (w : List String),
      (∀ k, dictLookup k (rows.foldl get_keywords_step (d, w)).1
        = (((rows.filterMap rowEntry).filter
              (fun e => decide (e.1 = k))).getLast?.map Prod.snd).or (dictLookup k d))
      ∧ (rows.foldl get_keywords_step (d, w)).2 = w ++ rows.filterMap rowWarning
      ∧ ((d.map Prod.fst).Nodup →
          (((rows.foldl get_keywords_step (d, w)).1).map Prod.fst).Nodup) := by
  induction rows with
  | nil => intro d w; simp
  | cons row rest ih =>
    intro d w
    rw [List.foldl_cons]
    have hstep : get_keywords_step (d, w) row
        = ((get_keywords_step (d, w) row).1, (get_keywords_step (d, w) row).2) := rfl
    rw [hstep, get_keywords_step_fst, get_keywords_step_snd]
    refine ⟨fun k => ?_, ?_, ?_⟩
    · cases hR : rowEntry row with
      | none =>
        simp only [List.filterMap_cons, hR]
        exact ((ih _ _).1 k)
      | some e =>
        rcases e with ⟨k0, v0⟩
        simp only [List.filterMap_cons, hR]
        rw [(ih _ _).1 k, lookup_dictInsert]
        by_cases hk : k0 = k
        · subst hk
          rw [if_pos rfl]
          have hfil : List.filter (fun e => decide (e.1 = k0))
                ((k0, v0) :: List.filterMap rowEntry rest)
              = (k0, v0) ::
                List.filter (fun e => decide (e.1 = k0)) (List.filterMap rowEntry rest) := by
            simp [List.filter_cons]
          rw [hfil, getLast?_cons_or, or_map_snd, Option.or_assoc]
          rfl
        · rw [if_neg hk]
          have hfil : List.filter (fun e => decide (e.1 = k))
                ((k0, v0) :: List.filterMap rowEntry rest)
              = List.filter (fun e => decide (e.1 = k)) (List.filterMap rowEntry rest) := by
            simp [List.filter_cons, hk]
          rw [hfil]
    · cases hW : rowWarning row with
      | none =>
        simp only [List.filterMap_cons, hW]
        exact (ih _ _).2.1
      | some kw =>
        simp only [List.filterMap_cons, hW]
        rw [(ih _ _).2.1, List.append_assoc]
        rfl
    · intro hd
      cases hR : rowEntry row with
      | none => exact (ih _ _).2.2 hd
      | some e => exact (ih _ _).2.2 (nodup_keys_dictInsert e.1 e.2 d hd)

/-- C9: reading the keyword table never aborts; a row's value that fails
integer parsing produces exactly one warning and contributes nothing to
the dict, every other row is still processed, a row contributes only
when both its keyword and value texts are non-empty after stripping, and
duplicate keyword texts collapse to a single dict entry whose value is
the last valid row's value (the lookup below returns the last
contributing row's value, and the dict keys are duplicate-free). -/
theorem C9_invalid_values_skipped (rows : List (Option String × Option String)) (k : String) :
    dictLookup k (get_keywords_from_table rows).1
      = ((rows.filterMap rowEntry).filter (fun e => decide (e.1 = k))).getLast?.map Prod.snd
    ∧ (get_keywords_from_table rows).2 = rows.filterMap rowWarning
    ∧ (((get_keywords_from_table rows).1).map Prod.fst).Nodup := by
  have h := get_keywords_loop rows [] []
  refine ⟨?_, ?_, ?_⟩
  · have hk := h.1 k
    simpa [get_keywords_from_table, dictLookup, Option.or_none] using hk
  · simpa [get_keywords_from_table] using h.2.1
  · exact h.2.2 (by simp)

end WordEstimator
